import Mathlib

/-!
Verification of the CSV report generator (script_for_csv.py).

Shallow embedding conventions:
* Python dicts become association lists with unique keys; insertion keeps
  the position of an existing key and appends a fresh key at the end,
  matching the insertion-order semantics of Python dicts.
* A record produced by csv.DictReader maps keys of type Option String
  (the restkey of DictReader is the Python value None, modelled as the
  key none; ordinary field names are wrapped in some) to values that are
  either strings, the Python value None (restval for missing columns),
  or a list of strings (the extra columns stored under the restkey).
* Python floats are modelled as exact rationals; float(str) is modelled
  on the decimal grammar sign? (digits (. digits?)? | . digits)
  ((e|E) sign? digits)?.  The special forms inf, infinity, nan and
  underscore digit separators are outside the model.
* Reading a file is modelled on rows already split by the csv module
  (quoting and delimiter mechanics of the csv library are abstracted);
  the Sniffer verdicts (has_header, and whether sniffing or parsing
  raised csv.Error) are carried as fields of the file model, since they
  are heuristics of the standard library, not of this repository.
* Exceptions become Except values: FileNotFoundError and ValueError
  during ingestion, AttributeError (from calling strip on a non string)
  during report generation.
-/

/-- A Python value stored in a record produced by csv.DictReader. -/
inductive Value where
  | vstr (s : String)
  | vnone
  | vlist (l : List String)
deriving DecidableEq, Repr

/-- A record key: some fieldname, or the DictReader restkey None. -/
abbrev Key := Option String

/-- One parsed row, as the Python dict produced by csv.DictReader. -/
abbrev Record := List (Key × Value)

/-- Python dict assignment d[k] = v: update in place if the key exists,
append at the end otherwise. -/
def dictInsert (d : Record) (k : Key) (v : Value) : Record :=
  if d.any (fun p => p.1 = k) then d.map (fun p => if p.1 = k then (k, v) else p)
  else d ++ [(k, v)]

/-- Python dict(pairs): left to right insertion. -/
def dictOfPairs (ps : List (Key × Value)) : Record :=
  ps.foldl (fun d p => dictInsert d p.1 p.2) []

/-- Python d.get(k): the value stored under k, if any. -/
def dictGet (d : Record) (k : Key) : Option Value :=
  (d.find? (fun p => p.1 = k)).map Prod.snd

/-- One step of csv.DictReader: turn a raw row into a dict, zipping the
fieldnames with the row, storing extra columns as a list under the
restkey None and filling missing columns with restval None. -/
def zipRow (fieldnames row : List String) : Record :=
  let d := dictOfPairs ((List.zip fieldnames row).map (fun p => ((some p.1 : Key), Value.vstr p.2)))
  if fieldnames.length < row.length then
    dictInsert d none (Value.vlist (row.drop fieldnames.length))
  else
    (fieldnames.drop row.length).foldl (fun d2 k => dictInsert d2 (some k) Value.vnone) d

/-- csv.DictReader with fieldnames=None over pre split rows: the first
row is consumed as the fieldnames, every following non blank row becomes
a record. -/
def dictReaderAll (rows : List (List String)) : List Record :=
  match rows with
  | [] => []
  | header :: rest => (rest.filter (fun r => r ≠ [])).map (zipRow header)

/-- Model of one input file: the rows as split by the csv module,
together with the Sniffer has_header verdict on its sample and whether
the csv library raised csv.Error while sniffing or reading. -/
structure CsvFile where
  hasHeader : Bool
  csvError : Bool
  rows : List (List String)

/-- Errors raised by CSVReader.read_csv_files: FileNotFoundError for a
missing path, ValueError for a csv.Error wrapped per file. -/
inductive IngestError where
  | notFound (path : String)
  | valueError (path : String)
deriving DecidableEq, Repr

/-- The per file body of read_csv_files: both branches of the has_header
test build a DictReader whose fieldnames come from the first row (the
no header branch passes fieldnames=None, which is the DictReader
default), so both consume the first row as the header. -/
def readFile (f : CsvFile) : List Record :=
  if f.hasHeader then dictReaderAll f.rows else dictReaderAll f.rows

/-- The loop of CSVReader.read_csv_files over the paths, accumulating
all_data; a missing path or a csv.Error aborts the whole call. -/
def readLoop (fs : String → Option CsvFile) : List String → List Record →
    Except IngestError (List Record)
  | [], acc => .ok acc
  | p :: ps, acc =>
    match fs p with
    | none => .error (.notFound p)
    | some f =>
      if f.csvError then .error (.valueError p)
      else readLoop fs ps (acc ++ readFile f)

/-- CSVReader.read_csv_files over a modelled filesystem. -/
def read_csv_files (fs : String → Option CsvFile) (paths : List String) :
    Except IngestError (List Record) :=
  readLoop fs paths []

/-! Python float parsing, on exact rationals. -/

/-- Numeric value of a list of decimal digit characters. -/
def digitsToNat (cs : List Char) : Nat :=
  cs.foldl (fun a c => 10 * a + (c.toNat - 48)) 0

/-- Split a leading run of decimal digits from the rest. -/
def spanDigits (cs : List Char) : List Char × List Char :=
  (cs.takeWhile Char.isDigit, cs.dropWhile Char.isDigit)

/-- Consume an optional leading sign. -/
def parseSignChar : List Char → Int × List Char
  | '+' :: cs => (1, cs)
  | '-' :: cs => (-1, cs)
  | cs => (1, cs)

/-- The rational denoted by sign, integer digits, fraction digits and a
signed exponent given by its own sign and digits. -/
def floatVal (sgn : Int) (ip fp : List Char) (esgn : Int) (ed : List Char) : ℚ :=
  let mant : ℚ := ((sgn * (digitsToNat (ip ++ fp) : Int) : Int) : ℚ)
  let e : Int := esgn * (digitsToNat ed : Int) - (fp.length : Int)
  if 0 ≤ e then mant * (10 : ℚ) ^ e.toNat
  else mant / (10 : ℚ) ^ (-e).toNat

/-- The exponent tail of the float grammar. -/
def floatExpTail (sgn : Int) (ip fp : List Char) (cs : List Char) : Option ℚ :=
  let (esgn, cs2) := parseSignChar cs
  let (ed, cs3) := spanDigits cs2
  if ed.isEmpty || !cs3.isEmpty then none
  else some (floatVal sgn ip fp esgn ed)

/-- Model of the Python builtin float(str) on the decimal grammar; none
models the ValueError raised on anything else. -/
def pyFloat (s : String) : Option ℚ :=
  let (sgn, cs) := parseSignChar s.toList
  let (ip, cs1) := spanDigits cs
  let (fp, cs2) :=
    match cs1 with
    | '.' :: cs' => spanDigits cs'
    | _ => ([], cs1)
  if ip.isEmpty && fp.isEmpty then none
  else
    match cs2 with
    | [] => some (floatVal sgn ip fp 1 [])
    | 'e' :: cs3 => floatExpTail sgn ip fp cs3
    | 'E' :: cs3 => floatExpTail sgn ip fp cs3
    | _ => none

/-- Floor of a rational, computed by flooring integer division. -/
def ratFloor (q : ℚ) : ℤ := Int.fdiv q.num (q.den : ℤ)

/-- Python round to the nearest integer, ties to the even integer. -/
def roundHalfEven (q : ℚ) : ℤ :=
  let f := ratFloor q
  let r := q - (f : ℚ)
  if r < 1 / 2 then f
  else if 1 / 2 < r then f + 1
  else if f % 2 = 0 then f else f + 1

/-- Python round(x, 2). -/
def round2 (q : ℚ) : ℚ := ((roundHalfEven (q * 100) : ℤ) : ℚ) / 100

/-- Python sum(xs) / len(xs) for a list of floats. -/
def meanQ (l : List ℚ) : ℚ := l.sum / (l.length : ℚ)

/-! The PerformanceReport generator. -/

/-- AttributeError raised by calling strip on a Python value that is not
a string. -/
inductive RunError where
  | attributeError
deriving DecidableEq, Repr

/-- Python str.strip with no arguments, dropping leading and trailing
whitespace (the whitespace set is the one of Char.isWhitespace; the
exotic Unicode whitespace stripped by Python is outside the model).
Computed structurally on the character list so that concrete runs
reduce. -/
def stripStr (s : String) : String :=
  ⟨((s.data.dropWhile Char.isWhitespace).reverse.dropWhile Char.isWhitespace).reverse⟩

/-- Python str.lower on ASCII letters. -/
def lowerStr (s : String) : String := ⟨s.data.map Char.toLower⟩

/-- Python v.strip() for a value read out of a record: defined for
strings, raises AttributeError otherwise. -/
def pyStrip (v : Value) : Except RunError String :=
  match v with
  | .vstr s => .ok (stripStr s)
  | _ => .error .attributeError

/-- row.get(k, ...).strip() as used by PerformanceReport.generate: the
default for a missing key is the empty string. -/
def getField (row : Record) (k : String) : Except RunError String :=
  pyStrip ((dictGet row (some k)).getD (Value.vstr ""))

/-- position_data[position].append(performance) on the defaultdict:
append to the list of an existing key, else create the key at the end
with a one element list. -/
def addSample (acc : List (String × List ℚ)) (k : String) (x : ℚ) :
    List (String × List ℚ) :=
  if acc.any (fun p => p.1 = k) then
    acc.map (fun p => if p.1 = k then (p.1, p.2 ++ [x]) else p)
  else acc ++ [(k, [x])]

/-- The body of the accumulation loop of PerformanceReport.generate for
one record: read and strip both fields (either read can raise
AttributeError), skip the record if a field is empty or the numeric
field does not parse as a float. -/
def collectStep (acc : List (String × List ℚ)) (row : Record) :
    Except RunError (List (String × List ℚ)) :=
  match getField row "position" with
  | .error e => .error e
  | .ok position =>
    match getField row "performance" with
    | .error e => .error e
    | .ok performance_str =>
      if position ≠ "" ∧ performance_str ≠ "" then
        match pyFloat performance_str with
        | some x => .ok (addSample acc position x)
        | none => .ok acc
      else .ok acc

/-- The accumulation loop of PerformanceReport.generate over the data. -/
def collectAux (acc : List (String × List ℚ)) :
    List Record → Except RunError (List (String × List ℚ))
  | [] => .ok acc
  | row :: rest =>
    match collectStep acc row with
    | .ok acc2 => collectAux acc2 rest
    | .error e => .error e

/-- One value of an output row: report rows are heterogeneous Python
lists holding the position string and the rounded average float. -/
inductive Cell where
  | cstr (s : String)
  | cnum (q : ℚ)
deriving DecidableEq, Repr

/-- The sort key lambda x: x[1]; every generated row has the float in
position 1. -/
def sortKey (row : List Cell) : ℚ :=
  match row with
  | _ :: Cell.cnum q :: _ => q
  | _ => 0

/-- Stable insertion of a row into a list sorted descending by sortKey;
an incoming row goes after the rows already placed whose key is not
smaller, which reproduces the stable reverse=True sort of Python. -/
def insertRow (x : List Cell) : List (List Cell) → List (List Cell)
  | [] => [x]
  | y :: ys => if sortKey y ≤ sortKey x then x :: y :: ys else y :: insertRow x ys

/-- report_rows.sort(key=lambda x: x[1], reverse=True). -/
def sortRows : List (List Cell) → List (List Cell)
  | [] => []
  | x :: xs => insertRow x (sortRows xs)

/-- Build the unsorted report rows from the accumulated samples: one row
[position, round(avg, 2)] per key whose sample list is nonempty. -/
def finalizeRows (pd : List (String × List ℚ)) : List (List Cell) :=
  pd.filterMap (fun p =>
    if p.2 ≠ [] then some [Cell.cstr p.1, Cell.cnum (round2 (meanQ p.2))] else none)

/-- PerformanceReport.generate. -/
def generate (data : List Record) :
    Except RunError (List String × List (List Cell)) :=
  match collectAux [] data with
  | .error e => .error e
  | .ok position_data =>
    .ok (["Position", "Avg Performance"], sortRows (finalizeRows position_data))

/-! The report factory. -/

/-- A report generator capability, as stored in the factory table. -/
abbrev ReportGen := List Record → Except RunError (List String × List (List Cell))

/-- The class attribute dict ReportFactory._reports, as an insertion
ordered association list. -/
abbrev Registry := List (String × ReportGen)

/-- The initial content of ReportFactory._reports. -/
def initialReports : Registry := [("performance", generate)]

/-- ReportFactory.get_report: look the lowercased name up in the table;
raise ValueError when nothing is found (report classes are always
truthy, so the falsiness test of the source is a presence test). -/
def get_report (reg : Registry) (report_name : String) :
    Except Unit ReportGen :=
  match (reg.find? (fun p => p.1 = lowerStr report_name)).map Prod.snd with
  | some g => .ok g
  | none => .error ()

/-- ReportFactory.register_report: raise ValueError when the exact name
is already a key, otherwise add the new entry. -/
def register_report (reg : Registry) (report_name : String) (report_class : ReportGen) :
    Except Unit Registry :=
  if reg.any (fun p => p.1 = report_name) then .error ()
  else .ok (reg ++ [(report_name, report_class)])

/-- ReportFactory.list_reports. -/
def list_reports (reg : Registry) : List String := reg.map Prod.fst

/-- The exit code computed by main after argument parsing, over a
modelled filesystem: 1 for any ingestion error, 1 when the files hold no
records, 1 for an unknown report or an exception escaping generate, 0
otherwise (also when the report has zero rows). -/
def mainRun (fs : String → Option CsvFile) (files : List String)
    (report : String) : Nat :=
  match read_csv_files fs files with
  | .error _ => 1
  | .ok data =>
    if data.isEmpty then 1
    else
      match get_report initialReports report with
      | .error _ => 1
      | .ok gen =>
        match gen data with
        | .error _ => 1
        | .ok _ => 0

/-! Specification side descriptions of the aggregation, stated directly
on the record list, used to characterise generate. -/

/-- The sample a single record contributes: the trimmed position key and
the parsed float, when both fields are present as nonempty strings and
the numeric field parses. -/
def rowSample (row : Record) : Option (String × ℚ) :=
  match getField row "position", getField row "performance" with
  | .ok p, .ok s =>
    if p ≠ "" ∧ s ≠ "" then
      match pyFloat s with
      | some x => some (p, x)
      | none => none
    else none
  | _, _ => none

/-- All samples of a given key, in record order. -/
def specSamples (data : List Record) (k : String) : List ℚ :=
  data.filterMap (fun row =>
    match rowSample row with
    | some px => if px.1 = k then some px.2 else none
    | none => none)

/-- The expected output row of a key. -/
def specRow (data : List Record) (k : String) : List Cell :=
  [Cell.cstr k, Cell.cnum (round2 (meanQ (specSamples data k)))]

/-- The group key displayed by an output row. -/
def keyOf (row : List Cell) : Option String :=
  match row with
  | Cell.cstr s :: _ => some s
  | _ => none

/-- Whether an output row displays the given group key. -/
def rowHasKey (k : String) (row : List Cell) : Bool :=
  keyOf row = some k

/-- A record that contributes a sample. -/
def validRecord (row : Record) : Bool :=
  (rowSample row).isSome

/-- The values stored under the position and performance keys, when
present, are strings (the scope of the totality guarantee of
generate). -/
def rowStrOk (row : Record) : Bool :=
  (match dictGet row (some "position") with
   | some (Value.vstr _) => true
   | none => true
   | _ => false) &&
  (match dictGet row (some "performance") with
   | some (Value.vstr _) => true
   | none => true
   | _ => false)

/-- A record list in which both aggregation fields are string valued
wherever present. -/
def StringValued (data : List Record) : Prop :=
  ∀ row ∈ data, rowStrOk row = true

instance : DecidablePred StringValued := fun data =>
  List.decidableBAll (fun row => rowStrOk row = true) data

/-- The samples stored under a key of the accumulated defaultdict. -/
def pdGet (pd : List (String × List ℚ)) (k : String) : List ℚ :=
  ((pd.find? (fun p => p.1 = k)).map Prod.snd).getD []

/-- Wellformedness of the accumulated defaultdict: keys are distinct and
every stored sample list is nonempty. -/
def PDWF (pd : List (String × List ℚ)) : Prop :=
  (pd.map Prod.fst).Nodup ∧ ∀ p ∈ pd, p.2 ≠ []

/-- The order produced by the reverse=True sort: an earlier row has a
key at least as large. -/
def rowOrder (a b : List Cell) : Prop := sortKey b ≤ sortKey a

/-! Concrete instances used in witnesses and counterexamples. -/

/-- A file whose sample made the Sniffer see a header but which has no
rows at all. -/
def fileEmpty : CsvFile := ⟨true, false, []⟩

/-- A filesystem holding only the empty file. -/
def fsEmpty : String → Option CsvFile :=
  fun p => if p = "empty.csv" then some fileEmpty else none

/-- A file with one data row both of whose fields are empty. -/
def fileInvalid : CsvFile := ⟨true, false, [["position", "performance"], ["", ""]]⟩

/-- A filesystem holding only the file with one unusable row. -/
def fsInvalid : String → Option CsvFile :=
  fun p => if p = "inv.csv" then some fileInvalid else none

/-- A file on which the Sniffer reports no header. -/
def fileNoHeader : CsvFile := ⟨false, false, [["a", "b"], ["c", "d"]]⟩

/-- A filesystem holding only the headerless file. -/
def fsNoHeader : String → Option CsvFile :=
  fun p => if p = "data.csv" then some fileNoHeader else none

/-- A file whose data row is shorter than its header. -/
def fileShortRow : CsvFile := ⟨true, false, [["a", "b", "c"], ["1"]]⟩

/-- A file whose data row is longer than its header. -/
def fileLongRow : CsvFile := ⟨true, false, [["a"], ["1", "2"]]⟩

/-- An ordinary small file. -/
def fileA : CsvFile := ⟨true, false, [["x"], ["1"]]⟩

/-- A filesystem holding fileA only, so any other path is missing. -/
def fs8 : String → Option CsvFile :=
  fun p => if p = "a.csv" then some fileA else none

/-- A trivial report generator used when exercising the registry. -/
def genZero : ReportGen := fun _ => .ok ([], [])

/-- The record list of the tolerance test of the test suite: one valid
record among malformed ones. -/
def dataMixed : List Record :=
  [[(some "position", Value.vstr "Developer"), (some "performance", Value.vstr "85.5")],
   [(some "position", Value.vstr "Developer"), (some "performance", Value.vstr "invalid")],
   [(some "position", Value.vstr ""), (some "performance", Value.vstr "92.0")],
   [(some "position", Value.vstr "Manager"), (some "performance", Value.vstr "")],
   []]

/-- Records that are all skipped by the aggregation. -/
def dataInvalid : List Record :=
  [[(some "position", Value.vstr "Developer"), (some "performance", Value.vstr "invalid")],
   [(some "position", Value.vstr ""), (some "performance", Value.vstr "92.0")],
   [(some "position", Value.vstr "Manager"), (some "performance", Value.vstr "")],
   []]

/-- A single record whose position key holds the Python value None, as
ingestion produces for a missing column. -/
def dataNone : List Record := [[((some "position" : Key), Value.vnone)]]

lemma addSample_fst (p : String × List ℚ) (k : String) (x : ℚ) :
    (if p.1 = k then (p.1, p.2 ++ [x]) else p).1 = p.1 := by
  split <;> rfl

lemma find?_key_eq {pd : List (String × List ℚ)} {k : String}
    {p0 : String × List ℚ}
    (h : pd.find? (fun p => p.1 = k) = some p0) : p0.1 = k := by
  have h1 := List.find?_some h
  exact of_decide_eq_true h1

lemma pdGet_addSample (pd : List (String × List ℚ)) (k : String) (x : ℚ)
    (k' : String) :
    pdGet (addSample pd k x) k' =
      if k' = k then pdGet pd k ++ [x] else pdGet pd k' := by
  unfold addSample
  by_cases hany : pd.any (fun p => p.1 = k)
  · rw [if_pos hany]
    unfold pdGet
    rw [List.find?_map]
    have hcomp : ((fun p : String × List ℚ => decide (p.1 = k')) ∘
        (fun p : String × List ℚ => if p.1 = k then (p.1, p.2 ++ [x]) else p)) =
        (fun p : String × List ℚ => decide (p.1 = k')) := by
      funext p
      simp only [Function.comp_apply, addSample_fst]
    rw [hcomp]
    by_cases hk : k' = k
    · subst hk
      rcases hfind : pd.find? (fun p => p.1 = k') with _ | p0
      · exfalso
        rw [List.any_eq_true] at hany
        rcases hany with ⟨p0, hp0, hp0k⟩
        have hsome : (pd.find? (fun p => p.1 = k')).isSome := by
          rw [List.find?_isSome]; exact ⟨p0, hp0, hp0k⟩
        rw [hfind] at hsome; simp at hsome
      · have hp0k : p0.1 = k' := find?_key_eq hfind
        simp [hfind, hp0k]
    · rcases hfind : pd.find? (fun p => p.1 = k') with _ | p0
      · simp [hfind, hk]
      · have hp0k : p0.1 = k' := find?_key_eq hfind
        have hne : ¬ p0.1 = k := by rw [hp0k]; exact hk
        simp [hfind, hk, hne]
  · rw [if_neg hany]
    unfold pdGet
    rw [List.find?_append]
    by_cases hk : k' = k
    · subst hk
      have hnone : pd.find? (fun p => p.1 = k') = none := by
        rcases hfind : pd.find? (fun p => p.1 = k') with _ | p0
        · exact hfind
        · exfalso
          apply hany
          rw [List.any_eq_true]
          refine ⟨p0, List.mem_of_find?_eq_some hfind, ?_⟩
          exact decide_eq_true (find?_key_eq hfind)
      rw [hnone]
      simp [hnone]
    · have h2 : List.find? (fun p : String × List ℚ => p.1 = k') [(k, [x])] = none := by
        have hd : ¬ (k = k') := fun h => hk h.symm
        simp [List.find?, hd]
      rw [h2]
      simp [hk]
lemma keys_addSample_of_any (pd : List (String × List ℚ)) (k : String) (x : ℚ)
    (h : pd.any (fun p => p.1 = k)) :
    (addSample pd k x).map Prod.fst = pd.map Prod.fst := by
  unfold addSample
  rw [if_pos h, List.map_map]
  congr 1
  funext p
  simp only [Function.comp_apply, addSample_fst]

lemma keys_addSample_of_fresh (pd : List (String × List ℚ)) (k : String) (x : ℚ)
    (h : ¬ pd.any (fun p => p.1 = k)) :
    (addSample pd k x).map Prod.fst = pd.map Prod.fst ++ [k] := by
  unfold addSample
  rw [if_neg h, List.map_append]
  rfl

lemma PDWF_addSample (pd : List (String × List ℚ)) (k : String) (x : ℚ)
    (h : PDWF pd) : PDWF (addSample pd k x) := by
  obtain ⟨hnd, hne⟩ := h
  by_cases hany : pd.any (fun p => p.1 = k)
  · constructor
    · rw [keys_addSample_of_any pd k x hany]; exact hnd
    · intro p hp
      unfold addSample at hp
      rw [if_pos hany] at hp
      rcases List.mem_map.mp hp with ⟨q, hq, hqe⟩
      subst hqe
      split
      · simp
      · exact hne q hq
  · constructor
    · rw [keys_addSample_of_fresh pd k x hany]
      rw [List.nodup_append]
      refine ⟨hnd, List.nodup_singleton k, ?_⟩
      intro a ha hb
      rcases List.mem_singleton.mp hb with rfl
      apply hany
      rw [List.any_eq_true]
      rcases List.mem_map.mp ha with ⟨q, hq, hqe⟩
      exact ⟨q, hq, by simp [hqe]⟩
    · intro p hp
      unfold addSample at hp
      rw [if_neg hany] at hp
      rcases List.mem_append.mp hp with h1 | h1
      · exact hne p h1
      · rcases List.mem_singleton.mp h1 with rfl
        simp

lemma collectStep_ok_inv (acc acc2 : List (String × List ℚ)) (row : Record)
    (h : collectStep acc row = .ok acc2) :
    acc2 = match rowSample row with
           | some kx => addSample acc kx.1 kx.2
           | none => acc := by
  simp only [collectStep] at h
  simp only [rowSample]
  rcases hp : getField row "position" with e | p
  · simp only [hp] at h
    cases h
  · simp only [hp] at h ⊢
    rcases hs : getField row "performance" with e2 | s
    · simp only [hs] at h
      cases h
    · simp only [hs] at h ⊢
      split at h
      · rcases hf : pyFloat s with _ | x <;> simp only [hf] at h ⊢ <;>
          cases h <;> simp_all
      · cases h
        rename_i hcond
        have hneg : ¬ (p ≠ "" ∧ s ≠ "") := by tauto
        rw [if_neg hneg]

lemma collectStep_ok_of_fields (acc : List (String × List ℚ)) (row : Record)
    (p s : String)
    (hp : getField row "position" = .ok p)
    (hs : getField row "performance" = .ok s) :
    ∃ acc2, collectStep acc row = .ok acc2 := by
  simp only [collectStep, hp, hs]
  split
  · rcases hf : pyFloat s with _ | x <;> simp only [hf] <;> exact ⟨_, rfl⟩
  · exact ⟨_, rfl⟩

lemma specSamples_nil (k : String) : specSamples [] k = [] := rfl

lemma specSamples_cons (row : Record) (rest : List Record) (k : String) :
    specSamples (row :: rest) k =
      (match rowSample row with
       | some px => if px.1 = k then [px.2] else []
       | none => []) ++ specSamples rest k := by
  unfold specSamples
  rw [List.filterMap_cons]
  rcases h : rowSample row with _ | px
  · simp
  · by_cases hk : px.1 = k <;> simp [hk]

lemma collectAux_ok (data : List Record) :
    ∀ acc pd, collectAux acc data = .ok pd → PDWF acc →
      PDWF pd ∧ ∀ k, pdGet pd k = pdGet acc k ++ specSamples data k := by
  induction data with
  | nil =>
    intro acc pd h hwf
    cases h
    exact ⟨hwf, fun k => by simp [specSamples_nil]⟩
  | cons row rest ih =>
    intro acc pd h hwf
    rcases hstep : collectStep acc row with e | acc2
    · simp only [collectAux, hstep] at h
      cases h
    · simp only [collectAux, hstep] at h
      have hacc2 := collectStep_ok_inv acc acc2 row hstep
      rcases hr : rowSample row with _ | kx <;> rw [hr] at hacc2
      · rw [hacc2] at h
        obtain ⟨hwf2, hget⟩ := ih acc pd h hwf
        refine ⟨hwf2, fun k => ?_⟩
        rw [hget, specSamples_cons, hr]
        simp
      · rw [hacc2] at h
        obtain ⟨hwf2, hget⟩ := ih _ pd h (PDWF_addSample _ _ _ hwf)
        refine ⟨hwf2, fun k => ?_⟩
        rw [hget, pdGet_addSample, specSamples_cons, hr]
        by_cases hk : k = kx.1
        · simp [hk, List.append_assoc]
        · have hk2 : ¬ (kx.1 = k) := fun hh => hk hh.symm
          simp [hk, hk2]

/-! The stable descending sort. -/

lemma insertRow_perm (x : List Cell) (l : List (List Cell)) :
    List.Perm (insertRow x l) (x :: l) := by
  induction l with
  | nil => exact List.Perm.refl _
  | cons y ys ih =>
    unfold insertRow
    split
    · exact List.Perm.refl _
    · exact (ih.cons y).trans (List.Perm.swap x y ys)

lemma sortRows_perm (l : List (List Cell)) : List.Perm (sortRows l) l := by
  induction l with
  | nil => exact List.Perm.refl _
  | cons x xs ih => exact (insertRow_perm x (sortRows xs)).trans (ih.cons x)

lemma mem_insertRow {x y : List Cell} {l : List (List Cell)} :
    y ∈ insertRow x l ↔ y = x ∨ y ∈ l :=
  ((insertRow_perm x l).mem_iff).trans List.mem_cons

lemma pairwise_insertRow {x : List Cell} {l : List (List Cell)}
    (h : l.Pairwise rowOrder) : (insertRow x l).Pairwise rowOrder := by
  induction l with
  | nil => simp [insertRow]
  | cons y ys ih =>
    rcases List.pairwise_cons.mp h with ⟨hy, hys⟩
    unfold insertRow
    split
    · rename_i hle
      rw [List.pairwise_cons]
      refine ⟨?_, h⟩
      intro z hz
      rcases List.mem_cons.mp hz with rfl | hz2
      · exact hle
      · exact le_trans (hy z hz2) hle
    · rename_i hgt
      rw [List.pairwise_cons]
      refine ⟨?_, ih hys⟩
      intro z hz
      rcases mem_insertRow.mp hz with rfl | hz2
      · exact le_of_not_le hgt
      · exact hy z hz2

lemma sortRows_pairwise (l : List (List Cell)) :
    (sortRows l).Pairwise rowOrder := by
  induction l with
  | nil => simp [sortRows]
  | cons x xs ih => exact pairwise_insertRow ih

/-! The finalisation of the accumulated samples into rows. -/

lemma mem_finalizeRows {pd : List (String × List ℚ)} {r : List Cell} :
    r ∈ finalizeRows pd ↔
      ∃ p ∈ pd, p.2 ≠ [] ∧ r = [Cell.cstr p.1, Cell.cnum (round2 (meanQ p.2))] := by
  unfold finalizeRows
  rw [List.mem_filterMap]
  constructor
  · rintro ⟨p, hp, hf⟩
    split at hf
    · rename_i hne
      cases hf
      exact ⟨p, hp, hne, rfl⟩
    · cases hf
  · rintro ⟨p, hp, hne, rfl⟩
    exact ⟨p, hp, by rw [if_pos hne]⟩

lemma countP_finalize_zero (pd : List (String × List ℚ)) (k : String)
    (h : ∀ p ∈ pd, p.1 ≠ k) :
    (finalizeRows pd).countP (rowHasKey k) = 0 := by
  induction pd with
  | nil => rfl
  | cons p rest ih =>
    have hrest := ih (fun q hq => h q (List.mem_cons_of_mem p hq))
    have hp1 : p.1 ≠ k := h p (List.mem_cons_self p rest)
    have hkey : rowHasKey k [Cell.cstr p.1, Cell.cnum (round2 (meanQ p.2))] = false := by
      simp [rowHasKey, keyOf, hp1]
    by_cases hne : p.2 = []
    · rw [show finalizeRows (p :: rest) = finalizeRows rest by
        unfold finalizeRows
        rw [List.filterMap_cons]
        simp [hne]]
      exact hrest
    · rw [show finalizeRows (p :: rest) =
          [Cell.cstr p.1, Cell.cnum (round2 (meanQ p.2))] :: finalizeRows rest by
        unfold finalizeRows
        rw [List.filterMap_cons]
        simp [hne]]
      rw [List.countP_cons, hkey]
      simp [hrest]

lemma countP_finalize_le_one (pd : List (String × List ℚ)) (k : String)
    (h : (pd.map Prod.fst).Nodup) :
    (finalizeRows pd).countP (rowHasKey k) ≤ 1 := by
  induction pd with
  | nil => simp [finalizeRows]
  | cons p rest ih =>
    rw [List.map_cons, List.nodup_cons] at h
    obtain ⟨hnotin, hnd⟩ := h
    by_cases hne : p.2 = []
    · rw [show finalizeRows (p :: rest) = finalizeRows rest by
        unfold finalizeRows
        rw [List.filterMap_cons]
        simp [hne]]
      exact ih hnd
    · rw [show finalizeRows (p :: rest) =
          [Cell.cstr p.1, Cell.cnum (round2 (meanQ p.2))] :: finalizeRows rest by
        unfold finalizeRows
        rw [List.filterMap_cons]
        simp [hne]]
      rw [List.countP_cons]
      by_cases hk : p.1 = k
      · have hzero : (finalizeRows rest).countP (rowHasKey k) = 0 := by
          refine countP_finalize_zero rest k (fun q hq hqe => hnotin ?_)
          rw [hk, ← hqe]
          exact List.mem_map_of_mem Prod.fst hq
        simp only [hzero, Nat.zero_add]
        split <;> simp
      · have hkey : rowHasKey k [Cell.cstr p.1, Cell.cnum (round2 (meanQ p.2))] = false := by
          simp [rowHasKey, keyOf, hk]
        rw [hkey]
        simp [ih hnd]

lemma find?_eq_of_mem_nodup {pd : List (String × List ℚ)} {k : String}
    {s : List ℚ} (hmem : (k, s) ∈ pd) (hnd : (pd.map Prod.fst).Nodup) :
    pd.find? (fun p => p.1 = k) = some (k, s) := by
  induction pd with
  | nil => cases hmem
  | cons q rest ih =>
    rw [List.map_cons, List.nodup_cons] at hnd
    obtain ⟨hnotin, hnd2⟩ := hnd
    rcases List.mem_cons.mp hmem with heq | hmem2
    · rw [← heq]
      exact List.find?_cons_of_pos _ (by simp)
    · have hq1 : ¬ (q.1 = k) := by
        intro he
        apply hnotin
        rw [he]
        exact List.mem_map_of_mem Prod.fst hmem2
      rw [List.find?_cons_of_neg _ (by simpa using hq1)]
      exact ih hmem2 hnd2

lemma pdGet_of_mem {pd : List (String × List ℚ)} {k : String} {s : List ℚ}
    (hmem : (k, s) ∈ pd) (hnd : (pd.map Prod.fst).Nodup) :
    pdGet pd k = s := by
  rw [pdGet, find?_eq_of_mem_nodup hmem hnd]
  rfl

lemma pdGet_ne_nil_mem {pd : List (String × List ℚ)} {k : String}
    (h : pdGet pd k ≠ []) : (k, pdGet pd k) ∈ pd := by
  unfold pdGet at *
  rcases hf : pd.find? (fun p => p.1 = k) with _ | p0
  · rw [hf] at h
    simp at h
  · rw [hf] at h ⊢
    have h1 : p0.1 = k := find?_key_eq hf
    have h2 := List.mem_of_find?_eq_some hf
    have : (k, (Option.map Prod.snd (some p0)).getD []) = p0 := by
      rw [← h1]
      rfl
    rw [this]
    exact h2

/-- Characterisation of a successful run of PerformanceReport.generate:
fixed headers, rows pairwise sorted descending by their float, exactly
one row per key carrying at least one sample, and nothing else. -/
theorem generate_chars (data : List Record) (hs : List String)
    (rows : List (List Cell)) (h : generate data = .ok (hs, rows)) :
    hs = ["Position", "Avg Performance"] ∧
    rows.Pairwise rowOrder ∧
    (∀ k, specSamples data k ≠ [] →
        specRow data k ∈ rows ∧ rows.countP (rowHasKey k) = 1) ∧
    (∀ r ∈ rows, ∃ k, specSamples data k ≠ [] ∧ r = specRow data k) := by
  unfold generate at h
  rcases hc : collectAux [] data with e | pd <;> rw [hc] at h
  · cases h
  · cases h
    obtain ⟨hwf, hget⟩ := collectAux_ok data [] pd hc ⟨List.nodup_nil, by simp⟩
    have hget0 : ∀ k, pdGet pd k = specSamples data k := by
      intro k
      have h1 := hget k
      have h2 : pdGet [] k = [] := rfl
      rw [h2] at h1
      simpa using h1
    refine ⟨rfl, sortRows_pairwise _, ?_, ?_⟩
    · intro k hk
      have hne : pdGet pd k ≠ [] := by rw [hget0]; exact hk
      have hmem := pdGet_ne_nil_mem hne
      have hrmem : specRow data k ∈ finalizeRows pd := by
        rw [mem_finalizeRows]
        refine ⟨(k, pdGet pd k), hmem, hne, ?_⟩
        rw [specRow, hget0]
      constructor
      · exact ((sortRows_perm _).mem_iff).mpr hrmem
      · rw [(sortRows_perm (finalizeRows pd)).countP_eq]
        refine Nat.le_antisymm (countP_finalize_le_one pd k hwf.1) ?_
        have hpos : 0 < (finalizeRows pd).countP (rowHasKey k) := by
          rw [List.countP_pos_iff]
          exact ⟨specRow data k, hrmem, by simp [specRow, rowHasKey, keyOf]⟩
        omega
    · intro r hr
      have hr2 : r ∈ finalizeRows pd := ((sortRows_perm _).mem_iff).mp hr
      rw [mem_finalizeRows] at hr2
      obtain ⟨p, hp, hne, rfl⟩ := hr2
      obtain ⟨k0, s0⟩ := p
      have hgk : pdGet pd k0 = s0 := pdGet_of_mem hp hwf.1
      refine ⟨k0, ?_, ?_⟩
      · rw [← hget0, hgk]
        exact hne
      · rw [specRow, ← hget0, hgk]

/-! Totality of generate on string valued records, and the tolerance of
malformed records. -/

lemma getField_ok_of_part (row : Record) (k : String)
    (h : (match dictGet row (some k) with
          | some (Value.vstr _) => true
          | none => true
          | _ => false) = true) :
    ∃ p, getField row k = .ok p := by
  have hg : getField row k = pyStrip ((dictGet row (some k)).getD (Value.vstr "")) := rfl
  rcases hd : dictGet row (some k) with _ | v
  · rw [hd] at hg
    exact ⟨stripStr "", hg⟩
  · rw [hd] at hg h
    rcases v with s | _ | l
    · exact ⟨stripStr s, hg⟩
    · simp at h
    · simp at h

lemma getField_ok_of_strOk (row : Record) (h : rowStrOk row = true) :
    (∃ p, getField row "position" = .ok p) ∧
    (∃ s, getField row "performance" = .ok s) := by
  unfold rowStrOk at h
  rw [Bool.and_eq_true] at h
  exact ⟨getField_ok_of_part row "position" h.1,
         getField_ok_of_part row "performance" h.2⟩

lemma collectAux_ok_of_str (data : List Record) :
    ∀ acc, StringValued data → ∃ pd, collectAux acc data = .ok pd := by
  induction data with
  | nil =>
    intro acc _
    exact ⟨acc, rfl⟩
  | cons row rest ih =>
    intro acc hS
    have hrow := hS row (List.mem_cons_self row rest)
    obtain ⟨⟨p, hp⟩, ⟨s, hs⟩⟩ := getField_ok_of_strOk row hrow
    obtain ⟨acc2, hstep⟩ := collectStep_ok_of_fields acc row p s hp hs
    obtain ⟨pd, hrest⟩ := ih acc2 (fun r hr => hS r (List.mem_cons_of_mem row hr))
    refine ⟨pd, ?_⟩
    simp only [collectAux, hstep]
    exact hrest

lemma generate_ok_of_str (data : List Record) (hS : StringValued data) :
    ∃ hr, generate data = .ok hr := by
  obtain ⟨pd, hc⟩ := collectAux_ok_of_str data [] hS
  exact ⟨(["Position", "Avg Performance"], sortRows (finalizeRows pd)), by
    simp only [generate, hc]⟩

lemma collectAux_filter (data : List Record) :
    ∀ acc, StringValued data →
      collectAux acc (data.filter validRecord) = collectAux acc data := by
  induction data with
  | nil =>
    intro acc _
    rfl
  | cons row rest ih =>
    intro acc hS
    have hrow := hS row (List.mem_cons_self row rest)
    obtain ⟨⟨p, hp⟩, ⟨s, hs⟩⟩ := getField_ok_of_strOk row hrow
    obtain ⟨acc2, hstep⟩ := collectStep_ok_of_fields acc row p s hp hs
    have hacc2 := collectStep_ok_inv acc acc2 row hstep
    have hrest : StringValued rest := fun r hr => hS r (List.mem_cons_of_mem row hr)
    by_cases hv : validRecord row
    · rw [List.filter_cons_of_pos hv]
      simp only [collectAux, hstep]
      exact ih acc2 hrest
    · rw [List.filter_cons_of_neg (by simpa using hv)]
      have hnone : rowSample row = none := by
        unfold validRecord at hv
        rcases hr : rowSample row with _ | kx
        · rfl
        · rw [hr] at hv
          simp at hv
      rw [hnone] at hacc2
      rw [show collectAux acc (row :: rest) = collectAux acc2 rest by
        simp only [collectAux, hstep]]
      rw [hacc2]
      exact ih acc hrest

lemma generate_filter (data : List Record) (hS : StringValued data) :
    generate (data.filter validRecord) = generate data := by
  unfold generate
  rw [collectAux_filter data [] hS]

/-! Lemmas for the doubling property. -/

lemma specSamples_append (d1 d2 : List Record) (k : String) :
    specSamples (d1 ++ d2) k = specSamples d1 k ++ specSamples d2 k := by
  unfold specSamples
  rw [List.filterMap_append]

lemma meanQ_doubling (s : List ℚ) : meanQ (s ++ s) = meanQ s := by
  unfold meanQ
  rw [List.sum_append, List.length_append]
  push_cast
  rw [show s.sum + s.sum = 2 * s.sum by ring]
  rw [show (s.length : ℚ) + (s.length : ℚ) = 2 * (s.length : ℚ) by ring]
  rw [mul_div_mul_left _ _ (two_ne_zero)]

lemma specRow_mem_iff (data : List Record) (hs : List String)
    (rows : List (List Cell)) (h : generate data = .ok (hs, rows)) (k : String) :
    specRow data k ∈ rows ↔ specSamples data k ≠ [] := by
  obtain ⟨_, _, hone, hall⟩ := generate_chars data hs rows h
  constructor
  · intro hmem
    obtain ⟨k2, hk2, he⟩ := hall _ hmem
    have hkey := congrArg keyOf he
    simp only [specRow, keyOf] at hkey
    cases hkey
    exact hk2
  · intro hne
    exact (hone k hne).1

/-! Characterisation of the DictReader row conversion. -/

lemma dictInsert_fresh (d : Record) (k : Key) (v : Value)
    (h : ∀ p ∈ d, p.1 ≠ k) : dictInsert d k v = d ++ [(k, v)] := by
  unfold dictInsert
  rw [if_neg]
  intro ha
  rw [List.any_eq_true] at ha
  obtain ⟨p, hp, hpe⟩ := ha
  exact h p hp (of_decide_eq_true hpe)

lemma foldl_dictInsert_fresh (ps : List (Key × Value)) :
    ∀ d : Record, (ps.map Prod.fst).Nodup →
      (∀ p ∈ ps, ∀ q ∈ d, q.1 ≠ p.1) →
      ps.foldl (fun d2 p => dictInsert d2 p.1 p.2) d = d ++ ps := by
  induction ps with
  | nil =>
    intro d _ _
    simp
  | cons p rest ih =>
    intro d hnd hdisj
    rw [List.foldl_cons]
    rw [dictInsert_fresh d p.1 p.2 (fun q hq => hdisj p (List.mem_cons_self _ _) q hq)]
    rw [List.map_cons, List.nodup_cons] at hnd
    have hd2 : ∀ r ∈ rest, ∀ q ∈ d ++ [(p.1, p.2)], q.1 ≠ r.1 := by
      intro r hr q hq
      rcases List.mem_append.mp hq with h1 | h1
      · exact hdisj r (List.mem_cons_of_mem _ hr) q h1
      · rcases List.mem_singleton.mp h1 with rfl
        intro he
        apply hnd.1
        rw [he]
        exact List.mem_map_of_mem Prod.fst hr
    rw [ih (d ++ [(p.1, p.2)]) hnd.2 hd2]
    simp

lemma zip_eq_zip_take (l1 l2 : List String) :
    List.zip l1 l2 = List.zip (l1.take l2.length) l2 := by
  induction l1 generalizing l2 with
  | nil => simp
  | cons a l1 ih =>
    cases l2 with
    | nil => simp
    | cons b l2 =>
      simp only [List.zip_cons_cons, List.length_cons, List.take_succ_cons]
      rw [← ih l2]

lemma map_fst_zip_take (fieldnames row : List String) :
    (List.zip fieldnames row).map Prod.fst = fieldnames.take row.length := by
  rw [zip_eq_zip_take]
  apply List.map_fst_zip
  rw [List.length_take]
  exact Nat.min_le_left _ _

lemma zipRow_chars (fieldnames row : List String) (hnd : fieldnames.Nodup) :
    zipRow fieldnames row =
      (List.zip fieldnames row).map (fun p => ((some p.1 : Key), Value.vstr p.2)) ++
      (if row.length ≤ fieldnames.length
       then (fieldnames.drop row.length).map (fun k => ((some k : Key), Value.vnone))
       else [((none : Key), Value.vlist (row.drop fieldnames.length))]) := by
  have hfst : ((List.zip fieldnames row).map
      (fun p : String × String => ((some p.1 : Key), Value.vstr p.2))).map Prod.fst =
      (fieldnames.take row.length).map (fun k => (some k : Key)) := by
    rw [List.map_map]
    have hcomp : (Prod.fst ∘ fun p : String × String => ((some p.1 : Key), Value.vstr p.2)) =
        ((fun k => (some k : Key)) ∘ Prod.fst) := rfl
    rw [hcomp, ← List.map_map, map_fst_zip_take]
  have hnodup : (((List.zip fieldnames row).map
      (fun p : String × String => ((some p.1 : Key), Value.vstr p.2))).map Prod.fst).Nodup := by
    rw [hfst]
    exact ((List.take_sublist _ _).nodup hnd).map (Option.some_injective _)
  have hofp : dictOfPairs ((List.zip fieldnames row).map
      (fun p => ((some p.1 : Key), Value.vstr p.2))) =
      (List.zip fieldnames row).map (fun p => ((some p.1 : Key), Value.vstr p.2)) := by
    unfold dictOfPairs
    rw [foldl_dictInsert_fresh _ [] hnodup (fun p _ q hq => absurd hq (List.not_mem_nil q))]
    simp
  unfold zipRow
  dsimp only
  rw [hofp]
  by_cases hlen : fieldnames.length < row.length
  · rw [if_pos hlen, if_neg (by omega)]
    rw [dictInsert_fresh _ none _ ?_]
    · intro p hp
      rcases List.mem_map.mp hp with ⟨q, hq, rfl⟩
      simp
  · rw [if_neg hlen, if_pos (by omega)]
    have hfold : (fieldnames.drop row.length).foldl
        (fun d2 k => dictInsert d2 (some k) Value.vnone)
        ((List.zip fieldnames row).map (fun p => ((some p.1 : Key), Value.vstr p.2))) =
        ((fieldnames.drop row.length).map (fun k => ((some k : Key), Value.vnone))).foldl
        (fun d2 p => dictInsert d2 p.1 p.2)
        ((List.zip fieldnames row).map (fun p => ((some p.1 : Key), Value.vstr p.2))) := by
      rw [List.foldl_map]
    rw [hfold]
    have hnd2 : (((fieldnames.drop row.length).map
        (fun k => ((some k : Key), Value.vnone))).map Prod.fst).Nodup := by
      rw [List.map_map]
      have hcomp : (Prod.fst ∘ fun k : String => ((some k : Key), Value.vnone)) =
          (fun k : String => (some k : Key)) := rfl
      rw [hcomp]
      exact ((List.drop_sublist _ _).nodup hnd).map (Option.some_injective _)
    have hdisj : ∀ p ∈ (fieldnames.drop row.length).map
        (fun k => ((some k : Key), Value.vnone)),
        ∀ q ∈ (List.zip fieldnames row).map
          (fun p => ((some p.1 : Key), Value.vstr p.2)), q.1 ≠ p.1 := by
      intro p hp q hq
      rcases List.mem_map.mp hp with ⟨kd, hkd, rfl⟩
      rcases List.mem_map.mp hq with ⟨ab, hab, rfl⟩
      intro he
      have h1 : ab.1 ∈ fieldnames.take row.length := by
        rw [← map_fst_zip_take fieldnames row]
        exact List.mem_map_of_mem Prod.fst hab
      have h2 : ab.1 = kd := Option.some_injective _ he
      exact List.disjoint_take_drop hnd (Nat.le_refl _) h1 (h2 ▸ hkd)
    rw [foldl_dictInsert_fresh _ _ hnd2 hdisj]

/-! Ingestion aborts on a missing path. -/

lemma readLoop_notFound (fs : String → Option CsvFile) :
    ∀ (ps : List String), (∃ p ∈ ps, fs p = none) →
      (∀ q ∈ ps, ∀ f, fs q = some f → f.csvError = false) →
      ∀ acc, ∃ pm, fs pm = none ∧
        readLoop fs ps acc = .error (IngestError.notFound pm) := by
  intro ps
  induction ps with
  | nil =>
    rintro ⟨p, hp, _⟩ _ _
    cases hp
  | cons p ps ih =>
    rintro ⟨pm0, hpm0, hnone⟩ hok acc
    rcases hf : fs p with _ | f
    · exact ⟨p, hf, by simp [readLoop, hf]⟩
    · have hcerr : f.csvError = false := hok p (List.mem_cons_self _ _) f hf
      have hmiss2 : ∃ q ∈ ps, fs q = none := by
        rcases List.mem_cons.mp hpm0 with rfl | h2
        · rw [hf] at hnone
          cases hnone
        · exact ⟨pm0, h2, hnone⟩
      obtain ⟨pm, h1, h2⟩ := ih hmiss2
        (fun q hq => hok q (List.mem_cons_of_mem _ hq)) (acc ++ readFile f)
      exact ⟨pm, h1, by simp [readLoop, hf, hcerr, h2]⟩

lemma find?_fst_eq {α : Type} {l : List (String × α)} {k : String}
    {p0 : String × α} (h : l.find? (fun p => p.1 = k) = some p0) : p0.1 = k := by
  have h1 := List.find?_some h
  exact of_decide_eq_true h1

/-! The claims. -/

/-- Claim C1: for every record list on which generate succeeds, the
headers are the fixed pair, there is exactly one output row per distinct
trimmed key holding at least one valid numeric sample, that row is the
key together with its rounded mean, and the rows are pairwise sorted by
rounded mean descending. -/
theorem C1_perf_report_shape (data : List Record) (hs : List String)
    (rows : List (List Cell)) (h : generate data = Except.ok (hs, rows)) :
    hs = ["Position", "Avg Performance"] ∧
    rows.Pairwise rowOrder ∧
    (∀ k, specSamples data k ≠ [] →
        specRow data k ∈ rows ∧ rows.countP (rowHasKey k) = 1) ∧
    (∀ r ∈ rows, ∃ k, specSamples data k ≠ [] ∧ r = specRow data k) :=
  generate_chars data hs rows h

/-- Witness for C1 at a concrete record list. -/
theorem C1_perf_report_shape_witness :
    generate dataInvalid =
      Except.ok (["Position", "Avg Performance"], ([] : List (List Cell))) ∧
    (["Position", "Avg Performance"] = ["Position", "Avg Performance"] ∧
     ([] : List (List Cell)).Pairwise rowOrder ∧
     (∀ k, specSamples dataInvalid k ≠ [] →
         specRow dataInvalid k ∈ ([] : List (List Cell)) ∧
         ([] : List (List Cell)).countP (rowHasKey k) = 1) ∧
     (∀ r ∈ ([] : List (List Cell)), ∃ k, specSamples dataInvalid k ≠ [] ∧
         r = specRow dataInvalid k)) :=
  ⟨rfl, C1_perf_report_shape dataInvalid _ _ rfl⟩

/-- Claim C2: on string valued records, generate never raises, malformed
records are skipped silently, and the report from a mix of valid and
invalid records equals the report from the valid records alone. -/
theorem C2_tolerance (data : List Record) (hS : StringValued data) :
    (∃ r, generate data = Except.ok r) ∧
    generate data = generate (data.filter validRecord) :=
  ⟨generate_ok_of_str data hS, (generate_filter data hS).symm⟩

/-- Witness for C2 at the mixed record list of the test suite. -/
theorem C2_tolerance_witness :
    StringValued dataMixed ∧
    ((∃ r, generate dataMixed = Except.ok r) ∧
     generate dataMixed = generate (dataMixed.filter validRecord)) :=
  ⟨by decide, C2_tolerance dataMixed (by decide)⟩

/-- Counterexample to C3: ingestion of the empty file succeeds with zero
records, yet main returns exit code 1, not 0. -/
theorem C3_counterexample :
    read_csv_files fsEmpty ["empty.csv"] = Except.ok [] ∧
    mainRun fsEmpty ["empty.csv"] "performance" = 1 :=
  ⟨rfl, rfl⟩

/-- Claim C3 as amended: zero input records exits with code 1, while a
successful run over nonempty records exits 0 even with zero rows. -/
theorem C3_amended (fs : String → Option CsvFile) (files : List String)
    (name : String) :
    (read_csv_files fs files = Except.ok [] → mainRun fs files name = 1) ∧
    (∀ data gen hr, read_csv_files fs files = Except.ok data → data ≠ [] →
        get_report initialReports name = Except.ok gen →
        gen data = Except.ok hr → mainRun fs files name = 0) := by
  constructor
  · intro h
    unfold mainRun
    simp only [h]
    rfl
  · intro data gen hr h1 h2 h3 h4
    unfold mainRun
    simp only [h1]
    rw [if_neg (by simp [h2])]
    simp only [h3]
    simp only [h4]

/-- Counterexample to C4: the name performance is registered, yet
registering it again spelled Performance succeeds instead of failing
with a duplicate error; and a generator registered under the mixed case
name MyReport cannot be looked up under that very name. -/
theorem C4_counterexample :
    (register_report initialReports "Performance" genZero).isOk = true ∧
    get_report (initialReports ++ [("MyReport", genZero)]) "MyReport" =
      Except.error () :=
  ⟨rfl, rfl⟩

/-- Claim C4 as amended: register checks the exact, case sensitive name
only, while lookup lowercases the requested name before an exact search,
returning the generator stored under the lowercased name. -/
theorem C4_amended (reg : Registry) (name : String) (g : ReportGen) :
    ((register_report reg name g).isOk = true ↔ ∀ p ∈ reg, p.1 ≠ name) ∧
    ((get_report reg name).isOk = true ↔ ∃ p ∈ reg, p.1 = lowerStr name) ∧
    (∀ g2, get_report reg name = Except.ok g2 → (lowerStr name, g2) ∈ reg) := by
  refine ⟨?_, ?_, ?_⟩
  · unfold register_report
    by_cases ha : reg.any (fun p => p.1 = name)
    · rw [if_pos ha]
      rw [List.any_eq_true] at ha
      obtain ⟨p, hp, hpe⟩ := ha
      constructor
      · intro h
        simp [Except.isOk, Except.toBool] at h
      · intro hall
        exact absurd (of_decide_eq_true hpe) (hall p hp)
    · rw [if_neg ha]
      constructor
      · intro _ p hp he
        exact ha (List.any_eq_true.mpr ⟨p, hp, decide_eq_true he⟩)
      · intro _
        rfl
  · unfold get_report
    rcases hf : reg.find? (fun p => p.1 = lowerStr name) with _ | p0 <;> rw [hf]
    · constructor
      · intro h
        simp [Except.isOk, Except.toBool] at h
      · rintro ⟨p, hp, hpe⟩
        have hsome : (reg.find? (fun q => q.1 = lowerStr name)).isSome :=
          List.find?_isSome.mpr ⟨p, hp, decide_eq_true hpe⟩
        rw [hf] at hsome
        cases hsome
    · constructor
      · intro _
        exact ⟨p0, List.mem_of_find?_eq_some hf, find?_fst_eq hf⟩
      · intro _
        rfl
  · intro g2 hg2
    unfold get_report at hg2
    rcases hf : reg.find? (fun p => p.1 = lowerStr name) with _ | p0 <;>
      rw [hf] at hg2
    · cases hg2
    · have h1 : p0.1 = lowerStr name := find?_fst_eq hf
      have hg3 : (Except.ok p0.2 : Except Unit ReportGen) = Except.ok g2 := hg2
      cases hg3
      have h2 : (lowerStr name, p0.2) = p0 := by rw [← h1]
      rw [h2]
      exact List.mem_of_find?_eq_some hf

/-- Counterexample to C5: on a file with no detected header the reader
still consumes the first row as the field names, producing one record
keyed by the first row cells, and no positional field names exist. -/
theorem C5_counterexample :
    read_csv_files fsNoHeader ["data.csv"] =
      Except.ok [[((some "a" : Key), Value.vstr "c"), (some "b", Value.vstr "d")]] ∧
    dictGet [((some "a" : Key), Value.vstr "c"), (some "b", Value.vstr "d")]
      (some "field_0") = none :=
  ⟨rfl, rfl⟩

/-- Claim C5 as amended: when no header is detected the code passes
fieldnames=None, the DictReader default, so the first row is consumed as
the field names and only the remaining non blank rows become records,
keyed by the first row cells; no positional names are synthesized. -/
theorem C5_amended (f : CsvFile) (hh : f.hasHeader = false)
    (hd : List String) (rest : List (List String)) (hr : f.rows = hd :: rest) :
    readFile f = (rest.filter (fun r => r ≠ [])).map (zipRow hd) := by
  simp [readFile, hh, hr, dictReaderAll]

/-- Witness for the amended C5 at a concrete headerless file. -/
theorem C5_amended_witness :
    fileNoHeader.hasHeader = false ∧
    fileNoHeader.rows = ["a", "b"] :: [["c", "d"]] ∧
    readFile fileNoHeader =
      ([["c", "d"]].filter (fun r => r ≠ [])).map (zipRow ["a", "b"]) :=
  ⟨rfl, rfl, C5_amended fileNoHeader rfl ["a", "b"] [["c", "d"]] rfl⟩

/-- Counterexample to C6: a short row leaves its missing field names
present in the record, bound to the Python value None, rather than
absent; a long row keeps its excess cells under the restkey None rather
than dropping them. -/
theorem C6_counterexample :
    readFile fileShortRow =
      [[((some "a" : Key), Value.vstr "1"), (some "b", Value.vnone),
        (some "c", Value.vnone)]] ∧
    dictGet [((some "a" : Key), Value.vstr "1"), (some "b", Value.vnone),
        (some "c", Value.vnone)] (some "b") = some Value.vnone ∧
    readFile fileLongRow =
      [[((some "a" : Key), Value.vstr "1"), ((none : Key), Value.vlist ["2"])]] :=
  ⟨rfl, rfl, rfl⟩

/-- Claim C6 as amended: a row with a column count mismatch still
becomes a Record and never aborts ingestion; missing columns appear as
keys bound to None (the DictReader restval) and excess columns are kept
as a list under the restkey None. -/
theorem C6_amended (fieldnames row : List String) (hnd : fieldnames.Nodup) :
    (zipRow fieldnames row =
      (List.zip fieldnames row).map (fun p => ((some p.1 : Key), Value.vstr p.2)) ++
      (if row.length ≤ fieldnames.length
       then (fieldnames.drop row.length).map (fun k => ((some k : Key), Value.vnone))
       else [((none : Key), Value.vlist (row.drop fieldnames.length))])) ∧
    ∀ hdr rows, (readFile (CsvFile.mk true false (hdr :: rows))).length =
      (rows.filter (fun r => r ≠ [])).length := by
  refine ⟨zipRow_chars fieldnames row hnd, ?_⟩
  intro hdr rows
  simp [readFile, dictReaderAll]

/-- Witness for the amended C6 at a concrete short row. -/
theorem C6_amended_witness :
    (["a", "b", "c"] : List String).Nodup ∧
    ((zipRow ["a", "b", "c"] ["1"] =
      (List.zip ["a", "b", "c"] ["1"]).map
        (fun p => ((some p.1 : Key), Value.vstr p.2)) ++
      (if (["1"] : List String).length ≤ (["a", "b", "c"] : List String).length
       then ((["a", "b", "c"] : List String).drop (["1"] : List String).length).map
         (fun k => ((some k : Key), Value.vnone))
       else [((none : Key),
         Value.vlist ((["1"] : List String).drop (["a", "b", "c"] : List String).length))])) ∧
     ∀ hdr rows, (readFile (CsvFile.mk true false (hdr :: rows))).length =
       (rows.filter (fun r => r ≠ [])).length) :=
  ⟨by decide, C6_amended ["a", "b", "c"] ["1"] (by decide)⟩

/-- Claim C7: every successful report satisfies both structural
invariants, each row is as long as the header list and each group key
heads at most one row. -/
theorem C7_invariants (data : List Record) (hs : List String)
    (rows : List (List Cell)) (h : generate data = Except.ok (hs, rows)) :
    (∀ r ∈ rows, r.length = hs.length) ∧
    (∀ k, rows.countP (rowHasKey k) ≤ 1) := by
  obtain ⟨hhs, _, hone, hall⟩ := generate_chars data hs rows h
  constructor
  · intro r hr
    obtain ⟨k, _, rfl⟩ := hall r hr
    rw [hhs]
    rfl
  · intro k
    by_cases hk : specSamples data k = []
    · have hzero : rows.countP (rowHasKey k) = 0 := by
        by_contra hne
        have hpos : 0 < rows.countP (rowHasKey k) := Nat.pos_of_ne_zero hne
        rw [List.countP_pos_iff] at hpos
        obtain ⟨r, hr, hkey⟩ := hpos
        obtain ⟨k2, hk2, rfl⟩ := hall r hr
        have hk2k : k2 = k := by
          simpa [specRow, rowHasKey, keyOf] using hkey
        exact hk2 (by rw [hk2k]; exact hk)
      omega
    · exact le_of_eq (hone k hk).2

/-- Witness for C7 at a concrete record list. -/
theorem C7_invariants_witness :
    generate ([] : List Record) =
      Except.ok (["Position", "Avg Performance"], ([] : List (List Cell))) ∧
    ((∀ r ∈ ([] : List (List Cell)),
        r.length = (["Position", "Avg Performance"] : List String).length) ∧
     (∀ k, ([] : List (List Cell)).countP (rowHasKey k) ≤ 1)) :=
  ⟨rfl, C7_invariants [] _ _ rfl⟩

/-- Claim C8: a missing path makes ingestion fail with the not found
error carrying a missing path, and no record set is delivered at all. -/
theorem C8_missing_aborts (fs : String → Option CsvFile) (paths : List String)
    (hmiss : ∃ p ∈ paths, fs p = none)
    (hok : ∀ q ∈ paths, ∀ f, fs q = some f → f.csvError = false) :
    ∃ pm, fs pm = none ∧
      read_csv_files fs paths = Except.error (IngestError.notFound pm) ∧
      ∀ rs, read_csv_files fs paths ≠ Except.ok rs := by
  obtain ⟨pm, h1, h2⟩ := readLoop_notFound fs paths hmiss hok []
  refine ⟨pm, h1, h2, ?_⟩
  intro rs hrs
  have hdef : read_csv_files fs paths = readLoop fs paths [] := rfl
  rw [hdef, h2] at hrs
  cases hrs

/-- Witness for C8 at a concrete filesystem with one missing path. -/
theorem C8_missing_aborts_witness :
    (∃ p ∈ ["a.csv", "missing.csv"], fs8 p = none) ∧
    ∃ pm, fs8 pm = none ∧
      read_csv_files fs8 ["a.csv", "missing.csv"] =
        Except.error (IngestError.notFound pm) ∧
      ∀ rs, read_csv_files fs8 ["a.csv", "missing.csv"] ≠ Except.ok rs := by
  have hok : ∀ q ∈ ["a.csv", "missing.csv"], ∀ f, fs8 q = some f →
      f.csvError = false := by
    intro q hq f hf
    rcases List.mem_cons.mp hq with rfl | hq2
    · have he : fs8 "a.csv" = some fileA := rfl
      rw [he] at hf
      cases hf
      rfl
    · rcases List.mem_cons.mp hq2 with rfl | hq3
      · have he : fs8 "missing.csv" = none := rfl
        rw [he] at hf
        cases hf
      · cases hq3
  exact ⟨⟨"missing.csv", by simp, rfl⟩,
    C8_missing_aborts fs8 ["a.csv", "missing.csv"]
      ⟨"missing.csv", by simp, rfl⟩ hok⟩

/-- Claim C9: generating from the list concatenated with itself doubles
every sample count, and the rounded mean of every group is unchanged, as
is the presence of its row in the report. -/
theorem C9_double_ingest (data : List Record) (hs1 : List String)
    (rows1 : List (List Cell)) (hs2 : List String) (rows2 : List (List Cell))
    (h1 : generate data = Except.ok (hs1, rows1))
    (h2 : generate (data ++ data) = Except.ok (hs2, rows2)) (k : String)
    (heq : ∀ x ∈ specSamples data k, ∀ y ∈ specSamples data k, x = y) :
    (specSamples (data ++ data) k).length = 2 * (specSamples data k).length ∧
    round2 (meanQ (specSamples (data ++ data) k)) =
      round2 (meanQ (specSamples data k)) ∧
    (specRow (data ++ data) k ∈ rows2 ↔ specRow data k ∈ rows1) := by
  have happ := specSamples_append data data k
  refine ⟨?_, ?_, ?_⟩
  · rw [happ, List.length_append]
    omega
  · rw [happ, meanQ_doubling]
  · rw [specRow_mem_iff _ _ _ h2 k, specRow_mem_iff _ _ _ h1 k, happ]
    constructor
    · intro hne hnil
      rw [hnil] at hne
      exact hne rfl
    · intro hne hnil
      rcases List.append_eq_nil.mp hnil with ⟨ha, _⟩
      exact hne ha

/-- Witness for C9 at a concrete record list. -/
theorem C9_double_ingest_witness :
    generate dataInvalid =
      Except.ok (["Position", "Avg Performance"], ([] : List (List Cell))) ∧
    ((specSamples (dataInvalid ++ dataInvalid) "Developer").length =
        2 * (specSamples dataInvalid "Developer").length ∧
     round2 (meanQ (specSamples (dataInvalid ++ dataInvalid) "Developer")) =
        round2 (meanQ (specSamples dataInvalid "Developer")) ∧
     (specRow (dataInvalid ++ dataInvalid) "Developer" ∈ ([] : List (List Cell)) ↔
        specRow dataInvalid "Developer" ∈ ([] : List (List Cell)))) :=
  ⟨rfl, C9_double_ingest dataInvalid _ _ _ _ rfl rfl "Developer"
    (fun x hx => absurd ((show specSamples dataInvalid "Developer" = [] from rfl) ▸ hx)
      (List.not_mem_nil x))⟩

/-- Claim C10: generate is total on record lists whose aggregation
fields are string valued wherever present, and a record holding the
Python value None under one of those keys makes it raise
AttributeError. -/
theorem C10_totality (data : List Record) (hS : StringValued data) :
    (∃ r, generate data = Except.ok r) ∧
    generate dataNone = Except.error RunError.attributeError :=
  ⟨generate_ok_of_str data hS, rfl⟩

/-- Witness for C10 at a concrete record list. -/
theorem C10_totality_witness :
    StringValued dataInvalid ∧
    ((∃ r, generate dataInvalid = Except.ok r) ∧
     generate dataNone = Except.error RunError.attributeError) :=
  ⟨by decide, C10_totality dataInvalid (by decide)⟩

/-- Witness for the amended C4 at the initial registry. -/
theorem C4_amended_witness :
    ((lowerStr "performance", generate) ∈ initialReports) ∧
    ((register_report initialReports "Performance" genZero).isOk = true) :=
  ⟨(C4_amended initialReports "performance" genZero).2.2 generate rfl,
   ((C4_amended initialReports "Performance" genZero).1).mpr (by decide)⟩

/-- Witness for the amended C3 at concrete filesystems. -/
theorem C3_amended_witness :
    mainRun fsEmpty ["empty.csv"] "performance" = 1 ∧
    mainRun fsInvalid ["inv.csv"] "performance" = 0 :=
  ⟨(C3_amended fsEmpty ["empty.csv"] "performance").1 rfl,
   (C3_amended fsInvalid ["inv.csv"] "performance").2
     [[(some "position", Value.vstr ""), (some "performance", Value.vstr "")]]
     generate (["Position", "Avg Performance"], []) rfl (by simp) rfl rfl⟩
